import Mathlib

/-!
Verification of the MAVLink v2 streaming frame decoder (`tokio_codec.rs`),
the TCP connection layer (`connection/tcp.rs`) and the parser error type
(`error.rs`) of this repository.

Bytes are embedded as `Nat` values (`b < 256` where it matters), byte buffers
as `List Nat`.  The raw-frame type `MAVLinkV2MessageRaw` is a 280-byte array
in the code; it is embedded as a `List Nat` of length 280.
-/

set_option maxRecDepth 100000

namespace Mavlink

/-- Modelled from the spec: the v2 frame-start marker byte `MAV_STX_V2`
(the constant itself is declared outside `src/`; §8 of the spec fixes its
value 0xFD via the concrete scenario). -/
def MAV_STX_V2 : Nat := 0xFD

/-- Modelled from the spec: the one defined incompatibility-flag bit,
"signed frame" (§3: "One defined bit indicates signed frame"). -/
def MAVLINK_IFLAG_SIGNED : Nat := 0x01

/-- Modelled from the spec: the supported incompatibility-flags mask
`MAVLINK_SUPPORTED_IFLAGS` (declared outside `src/`); the signing bit is the
only supported bit. -/
def MAVLINK_SUPPORTED_IFLAGS : Nat := 0x01

/-- `MAVLinkV2MessageRaw::HEADER_SIZE` (declared outside `src/`): the 9
header bytes that follow the magic byte.  Its value is forced by the usage
in `decode`, which consumes the magic byte separately and then peeks
`HEADER_SIZE` bytes covering payload-length through message-id. -/
def HEADER_SIZE : Nat := 9

/-- Modelled from the spec (§4.1): one step of the CRC-16/MCRF4XX
accumulator update used by the checksum. -/
def crc_accumulate (acc b : Nat) : Nat :=
  let tmp := (acc ^^^ b) % 256
  let tmp2 := (tmp ^^^ (tmp <<< 4)) % 256
  ((acc >>> 8) ^^^ (tmp2 <<< 8) ^^^ (tmp2 <<< 3) ^^^ (tmp2 >>> 4)) % 65536

/-- Modelled from the spec (§4.1): checksum of a byte sequence followed by
the seed byte, starting from the all-ones 16-bit value. -/
def crc_calculate (bytes : List Nat) (seed : Nat) : Nat :=
  (bytes ++ [seed]).foldl crc_accumulate 0xFFFF

/-- Modelled from the spec (§3): `payload_length` is the byte at offset 1. -/
def payload_length (m : List Nat) : Nat := m.getD 1 0

/-- Modelled from the spec (§3): `incompatibility_flags` is the byte at
offset 2. -/
def incompatibility_flags (m : List Nat) : Nat := m.getD 2 0

/-- Modelled from the spec (§3): `message_id` is the 3-byte little-endian
field at offsets 7..9. -/
def message_id (m : List Nat) : Nat :=
  m.getD 7 0 + 256 * m.getD 8 0 + 65536 * m.getD 9 0

/-- Modelled from the spec (§4.2): `signature_lenght()` returns 13 when the
signing incompatibility bit is set and 0 otherwise (the accessor, declared
outside `src/`, keeps the source's spelling). -/
def signature_lenght (m : List Nat) : Nat :=
  if incompatibility_flags m &&& MAVLINK_IFLAG_SIGNED > 0 then 13 else 0

/-- Modelled from the spec (§3): the stored checksum, 2 bytes little-endian
directly after the payload. -/
def stored_checksum (m : List Nat) : Nat :=
  m.getD (10 + payload_length m) 0 + 256 * m.getD (11 + payload_length m) 0

/-- Modelled from the spec (§4.2): `has_valid_crc` recomputes the checksum
over the header-without-magic plus the payload, seeded with the message
catalog's extra-CRC byte for this message id, and compares it with the
stored checksum.  It never trusts the stored value. -/
def has_valid_crc (extraCrc : Nat → Nat) (m : List Nat) : Bool :=
  stored_checksum m ==
    crc_calculate ((m.drop 1).take (HEADER_SIZE + payload_length m))
      (extraCrc (message_id m))

/-- The 280-byte zero-initialised raw-frame buffer (`MAVLinkV2MessageRaw::new`,
buffer size 1 + 9 + 255 + 2 + 13 = 280). -/
def newMessage : List Nat := List.replicate 280 0

/-- `DecoderState` from `tokio_codec.rs`. -/
inductive DecoderState where
  | SearchForMagicByte
  | ParseHeader
  | ParsePayload
  | CheckCRC
deriving DecidableEq, Repr

/-- `MAVLinkV2Codec`: the decoder state together with the in-progress
raw-frame buffer. -/
structure Codec where
  state : DecoderState
  message : List Nat
deriving DecidableEq, Repr

/-- `MAVLinkV2Codec::new`. -/
def Codec.new : Codec := ⟨.SearchForMagicByte, newMessage⟩

/-- `MAVLinkV2Codec::reset`: back to magic search with a fresh buffer. -/
def Codec.reset (_ : Codec) : Codec := Codec.new

/-- `copy_from_slice` of `s` into `dst` at offset `off`. -/
def copyInto (dst : List Nat) (off : Nat) (s : List Nat) : List Nat :=
  dst.take off ++ s ++ dst.drop (off + s.length)

/-- The inner magic-search loop of `decode`: pop bytes from the front until
the buffer is exhausted (`none`) or a byte equal to `MAV_STX_V2` has been
consumed (`some rest`). -/
def searchMagic : List Nat → Option (List Nat)
  | [] => none
  | b :: rest => if b = MAV_STX_V2 then some rest else searchMagic rest

/-- Payload + checksum + signature length required after the header
(`full_payload_and_checksum_and_sign_len` in `decode`). -/
def trailingLen (m : List Nat) : Nat :=
  payload_length m + 2 + signature_lenght m

/-- Result of one iteration of the `loop` in `decode`: either the call
returns a frame, returns "no frame yet", or `continue`s with new state. -/
inductive StepRes where
  | yield (f : List Nat) (c : Codec) (src : List Nat)
  | needMore (c : Codec) (src : List Nat)
  | cont (c : Codec) (src : List Nat)
deriving Repr

/-- The source buffer a step result leaves behind. -/
def StepRes.src : StepRes → List Nat
  | .yield _ _ s => s
  | .needMore _ s => s
  | .cont _ s => s

/-- One iteration of the `loop` in `MAVLinkV2Codec::decode`, translated
arm by arm from `tokio_codec.rs` (the `src.reserve` calls only affect
capacity, not contents, and are dropped). -/
def decodeStep (extraCrc : Nat → Nat) (c : Codec) (src : List Nat) : StepRes :=
  match c.state with
  | .SearchForMagicByte =>
    match searchMagic src with
    | none => .needMore c []
    | some rest => .cont ⟨.ParseHeader, c.message.set 0 MAV_STX_V2⟩ rest
  | .ParseHeader =>
    if HEADER_SIZE ≤ src.length then
      let m := copyInto c.message 1 (src.take HEADER_SIZE)
      if incompatibility_flags m &&& (255 ^^^ MAVLINK_SUPPORTED_IFLAGS) > 0 then
        .cont (Codec.reset ⟨.ParseHeader, m⟩) src
      else
        .cont ⟨.ParsePayload, m⟩ src
    else .needMore c src
  | .ParsePayload =>
    if HEADER_SIZE + trailingLen c.message ≤ src.length then
      .cont
        ⟨.CheckCRC,
          copyInto c.message 10 ((src.drop HEADER_SIZE).take (trailingLen c.message))⟩
        src
    else .needMore c src
  | .CheckCRC =>
    if has_valid_crc extraCrc c.message then
      .yield c.message c src
    else
      .cont (Codec.reset c) src

/-- The `loop` of `decode`, iterated with explicit fuel; `none` means the
fuel ran out (shown never to happen for the fuel used by `decode`). -/
def decodeFuel (extraCrc : Nat → Nat) :
    Nat → Codec → List Nat → Option (Option (List Nat) × Codec × List Nat)
  | 0, _, _ => none
  | fuel + 1, c, src =>
    match decodeStep extraCrc c src with
    | .yield f c' s' => some (some f, c', s')
    | .needMore c' s' => some (none, c', s')
    | .cont c' s' => decodeFuel extraCrc fuel c' s'

/-- Rank of a decoder state inside one call: together with the buffer
length it strictly decreases along every `continue`. -/
def stateRank : DecoderState → Nat
  | .SearchForMagicByte => 0
  | .CheckCRC => 1
  | .ParsePayload => 2
  | .ParseHeader => 3

/-- `MAVLinkV2Codec::decode`: returns the optional frame, the codec after
the call, and what is left of the source buffer.  `4 * src.length + 4` fuel
always suffices (proved below), so the default value is never used. -/
def decode (extraCrc : Nat → Nat) (c : Codec) (src : List Nat) :
    Option (List Nat) × Codec × List Nat :=
  (decodeFuel extraCrc (4 * src.length + 4) c src).getD (none, c, src)

/-- The extra-CRC seed function of the `MockMessage` catalog used by the
repository's tests: every message id has seed byte 152. -/
def mockExtraCrc : Nat → Nat := fun _ => 152

/-- The 42-byte `COMMAND_LONG_TRUNCATED_V2` test frame from
`tokio_codec.rs`. -/
def testFrame : List Nat :=
  [0xFD, 30, 0, 0, 0, 0, 50, 76, 0, 0,
   0, 0, 230, 66, 0, 64, 156, 69, 0, 0,
   0, 0, 0, 0, 0, 0, 0, 0, 0, 0,
   0, 0, 0, 0, 0, 0, 0, 0, 255, 1,
   188, 195]

/-- A 12-byte valid frame (payload length 0) under the mock catalog. -/
def innerFrame : List Nat := [0xFD, 0, 0, 0, 0, 0, 0, 0, 0, 0, 70, 132]

/-- A 24-byte valid frame whose 12-byte payload is itself a valid frame. -/
def outerFrame : List Nat :=
  [0xFD, 12, 0, 0, 0, 0, 0, 0, 0, 0] ++ innerFrame ++ [34, 173]

/-- Drive `decode` with a `reset` after every returned frame, stopping at
the first "no frame yet"; the fuel bounds the number of iterations. -/
def decodeAllFuel (extraCrc : Nat → Nat) :
    Nat → Codec → List Nat → List (List Nat)
  | 0, _, _ => []
  | fuel + 1, c, src =>
    match decode extraCrc c src with
    | (some f, c', src') => f :: decodeAllFuel extraCrc fuel (Codec.reset c') src'
    | (none, _, _) => []

/-- Feed a whole buffer and collect every frame produced with a `reset`
between frames (as the repository's `test_v2_tokio_codec_decode` does). -/
def decodeAll (extraCrc : Nat → Nat) (buf : List Nat) : List (List Nat) :=
  decodeAllFuel extraCrc (buf.length + 1) Codec.new buf

/-! ### Lemmas about the magic-byte search -/

theorem searchMagic_length : ∀ {src rest : List Nat},
    searchMagic src = some rest → rest.length < src.length := by
  intro src
  induction src with
  | nil => intro rest h; simp [searchMagic] at h
  | cons b tl ih =>
    intro rest h
    by_cases hb : b = MAV_STX_V2
    · simp [searchMagic, hb] at h
      subst h
      simp
    · simp [searchMagic, hb] at h
      have := ih h
      simp
      omega

theorem searchMagic_append_none {src : List Nat} (ext : List Nat)
    (h : searchMagic src = none) : searchMagic (src ++ ext) = searchMagic ext := by
  induction src with
  | nil => simp
  | cons b tl ih =>
    by_cases hb : b = MAV_STX_V2
    · simp [searchMagic, hb] at h
    · simp [searchMagic, hb] at h ⊢
      exact ih h

theorem searchMagic_append_some {src rest : List Nat} (ext : List Nat)
    (h : searchMagic src = some rest) :
    searchMagic (src ++ ext) = some (rest ++ ext) := by
  induction src with
  | nil => simp [searchMagic] at h
  | cons b tl ih =>
    by_cases hb : b = MAV_STX_V2
    · simp [searchMagic, hb] at h ⊢
      exact h
    · simp [searchMagic, hb] at h ⊢
      exact ih h

theorem searchMagic_none_of_no_magic {src : List Nat}
    (h : ∀ b ∈ src, b ≠ MAV_STX_V2) : searchMagic src = none := by
  induction src with
  | nil => rfl
  | cons b tl ih =>
    have hb : b ≠ MAV_STX_V2 := h b (by simp)
    simp [searchMagic, hb]
    exact ih fun x hx => h x (by simp [hx])

/-- Full characterisation of one search pass: either the whole buffer is
consumed and held no marker byte, or exactly the bytes up to and including
the first marker byte are consumed. -/
theorem searchMagic_characterize : ∀ src : List Nat,
    (searchMagic src = none ∧ ∀ b ∈ src, b ≠ MAV_STX_V2) ∨
    (∃ i, i < src.length ∧ src.getD i 0 = MAV_STX_V2 ∧
      (∀ j < i, src.getD j 0 ≠ MAV_STX_V2) ∧
      searchMagic src = some (src.drop (i + 1))) := by
  intro src
  induction src with
  | nil => left; exact ⟨rfl, by simp⟩
  | cons b tl ih =>
    by_cases hb : b = MAV_STX_V2
    · right
      exact ⟨0, by simp, by simp [hb], by omega, by simp [searchMagic, hb]⟩
    · rcases ih with ⟨h1, h2⟩ | ⟨i, hi, hmag, hbefore, heq⟩
      · left
        constructor
        · simp [searchMagic, hb, h1]
        · intro x hx
          rcases List.mem_cons.mp hx with rfl | hx
          · exact hb
          · exact h2 x hx
      · right
        refine ⟨i + 1, by simpa using hi, by simpa using hmag, ?_, ?_⟩
        · intro j hj
          cases j with
          | zero => simpa using hb
          | succ j' => simpa using hbefore j' (by omega)
        · simpa [searchMagic, hb] using heq

/-! ### Fuel bookkeeping for `decode` -/

theorem stateRank_lt_four : ∀ s : DecoderState, stateRank s < 4 := by
  intro s; cases s <;> simp [stateRank]

theorem step_cont_measure {extraCrc : Nat → Nat} {c : Codec} {src : List Nat}
    {c' : Codec} {s' : List Nat} (h : decodeStep extraCrc c src = .cont c' s') :
    4 * s'.length + stateRank c'.state < 4 * src.length + stateRank c.state := by
  obtain ⟨st, msg⟩ := c
  cases st <;> simp only [decodeStep] at h
  case SearchForMagicByte =>
    cases hsm : searchMagic src <;> rw [hsm] at h
    · exact absurd h (by simp)
    case some rest =>
      rw [StepRes.cont.injEq] at h
      obtain ⟨rfl, rfl⟩ := h
      have := searchMagic_length hsm
      simp [stateRank]
      omega
  case ParseHeader =>
    split at h
    · split at h <;>
      · rw [StepRes.cont.injEq] at h
        obtain ⟨rfl, rfl⟩ := h
        simp [Codec.reset, Codec.new, stateRank]
    · exact absurd h (by simp)
  case ParsePayload =>
    split at h
    · rw [StepRes.cont.injEq] at h
      obtain ⟨rfl, rfl⟩ := h
      simp [stateRank]
    · exact absurd h (by simp)
  case CheckCRC =>
    split at h
    · exact absurd h (by simp)
    · rw [StepRes.cont.injEq] at h
      obtain ⟨rfl, rfl⟩ := h
      simp [Codec.reset, Codec.new, stateRank]

theorem decodeFuel_isSome (extraCrc : Nat → Nat) :
    ∀ fuel (c : Codec) (src : List Nat),
      4 * src.length + stateRank c.state < fuel →
      (decodeFuel extraCrc fuel c src).isSome := by
  intro fuel
  induction fuel with
  | zero => intro c src h; omega
  | succ n ih =>
    intro c src h
    simp only [decodeFuel]
    cases hstep : decodeStep extraCrc c src with
    | yield f c' s' => simp
    | needMore c' s' => simp
    | cont c' s' =>
      exact ih c' s' (by have := step_cont_measure hstep; omega)

theorem decodeFuel_mono (extraCrc : Nat → Nat) :
    ∀ fuel fuel' (c : Codec) (src : List Nat) r, fuel ≤ fuel' →
      decodeFuel extraCrc fuel c src = some r →
      decodeFuel extraCrc fuel' c src = some r := by
  intro fuel
  induction fuel with
  | zero => intro fuel' c src r _ h; simp [decodeFuel] at h
  | succ n ih =>
    intro fuel' c src r hle h
    obtain ⟨m, rfl⟩ : ∃ m, fuel' = m + 1 := ⟨fuel' - 1, by omega⟩
    simp only [decodeFuel] at h ⊢
    cases hstep : decodeStep extraCrc c src <;> rw [hstep] at h
    · exact h
    · exact h
    · exact ih m _ _ r (by omega) h

theorem decode_eq_of_decodeFuel {extraCrc : Nat → Nat} (fuel : Nat) {c : Codec}
    {src : List Nat} {r : Option (List Nat) × Codec × List Nat}
    (h : decodeFuel extraCrc fuel c src = some r) :
    decode extraCrc c src = r := by
  have h1 : (decodeFuel extraCrc (4 * src.length + 4) c src).isSome :=
    decodeFuel_isSome extraCrc _ c src (by have := stateRank_lt_four c.state; omega)
  obtain ⟨r', hr'⟩ := Option.isSome_iff_exists.mp h1
  have hA := decodeFuel_mono extraCrc fuel (max fuel (4 * src.length + 4)) c src r
    (le_max_left _ _) h
  have hB := decodeFuel_mono extraCrc (4 * src.length + 4) (max fuel (4 * src.length + 4))
    c src r' (le_max_right _ _) hr'
  rw [hA] at hB
  cases hB
  simp [decode, hr']

theorem decode_toFuel (extraCrc : Nat → Nat) (c : Codec) (src : List Nat) :
    decodeFuel extraCrc (4 * src.length + 4) c src = some (decode extraCrc c src) := by
  have h1 : (decodeFuel extraCrc (4 * src.length + 4) c src).isSome :=
    decodeFuel_isSome extraCrc _ c src (by have := stateRank_lt_four c.state; omega)
  obtain ⟨r', hr'⟩ := Option.isSome_iff_exists.mp h1
  rw [hr', decode_eq_of_decodeFuel _ hr']

theorem decode_of_yield {extraCrc : Nat → Nat} {c : Codec} {src : List Nat}
    {f : List Nat} {c' : Codec} {s' : List Nat}
    (h : decodeStep extraCrc c src = .yield f c' s') :
    decode extraCrc c src = (some f, c', s') :=
  decode_eq_of_decodeFuel 1 (by simp [decodeFuel, h])

theorem decode_of_needMore {extraCrc : Nat → Nat} {c : Codec} {src : List Nat}
    {c' : Codec} {s' : List Nat}
    (h : decodeStep extraCrc c src = .needMore c' s') :
    decode extraCrc c src = (none, c', s') :=
  decode_eq_of_decodeFuel 1 (by simp [decodeFuel, h])

theorem decode_of_cont {extraCrc : Nat → Nat} {c : Codec} {src : List Nat}
    {c' : Codec} {s' : List Nat}
    (h : decodeStep extraCrc c src = .cont c' s') :
    decode extraCrc c src = decode extraCrc c' s' := by
  refine decode_eq_of_decodeFuel (4 * s'.length + 4 + 1) ?_
  simp only [decodeFuel, h]
  exact decode_toFuel extraCrc c' s'

theorem decode_step_congr {extraCrc : Nat → Nat} {c1 : Codec} {s1 : List Nat}
    {c2 : Codec} {s2 : List Nat}
    (h : decodeStep extraCrc c1 s1 = decodeStep extraCrc c2 s2) :
    decode extraCrc c1 s1 = decode extraCrc c2 s2 := by
  cases hstep : decodeStep extraCrc c2 s2 with
  | yield f c' s' => rw [decode_of_yield (by rw [h, hstep]), decode_of_yield hstep]
  | needMore c' s' => rw [decode_of_needMore (by rw [h, hstep]), decode_of_needMore hstep]
  | cont c' s' => rw [decode_of_cont (by rw [h, hstep]), decode_of_cont hstep]

/-! ### Index lemmas for `copyInto` and friends -/

theorem getD_set_zero {l : List Nat} {v : Nat} (h : 0 < l.length) :
    (l.set 0 v).getD 0 0 = v := by
  cases l with
  | nil => simp at h
  | cons a tl => rfl

theorem getD_take_of_lt {l : List Nat} {n m : Nat} (h : m < n) :
    (l.take n).getD m 0 = l.getD m 0 := by
  rw [List.getD_eq_getD_get?, List.getD_eq_getD_get?]
  simp only [List.get?_eq_getElem?]
  rw [List.getElem?_take_of_lt h]

theorem getD_drop {l : List Nat} {n m : Nat} :
    (l.drop n).getD m 0 = l.getD (n + m) 0 := by
  rw [List.getD_eq_getD_get?, List.getD_eq_getD_get?]
  simp only [List.get?_eq_getElem?]
  rw [List.getElem?_drop]

theorem copyInto_length {d s : List Nat} {off : Nat} (h : off + s.length ≤ d.length) :
    (copyInto d off s).length = d.length := by
  simp [copyInto]
  omega

theorem copyInto_getD_lt {d s : List Nat} {off i : Nat} (hi : i < off)
    (hoff : off ≤ d.length) : (copyInto d off s).getD i 0 = d.getD i 0 := by
  unfold copyInto
  rw [List.append_assoc,
    List.getD_append _ _ _ _ (by simp [List.length_take]; omega),
    getD_take_of_lt hi]

theorem copyInto_getD_mid {d s : List Nat} {off i : Nat} (h1 : off ≤ i)
    (h2 : i < off + s.length) (hoff : off ≤ d.length) :
    (copyInto d off s).getD i 0 = s.getD (i - off) 0 := by
  unfold copyInto
  have htake : (d.take off).length = off := by simp [List.length_take]; omega
  rw [List.append_assoc,
    List.getD_append_right _ _ _ _ (by omega), htake,
    List.getD_append _ _ _ _ (by omega)]

theorem copyInto_getD_ge {d s : List Nat} {off i : Nat} (h1 : off + s.length ≤ i)
    (hoff : off ≤ d.length) : (copyInto d off s).getD i 0 = d.getD i 0 := by
  unfold copyInto
  have htake : (d.take off).length = off := by simp [List.length_take]; omega
  rw [List.append_assoc,
    List.getD_append_right _ _ _ _ (by omega), htake,
    List.getD_append_right _ _ _ _ (by omega), getD_drop]
  congr 1
  omega

theorem mem_copyInto {d s : List Nat} {off : Nat} {b : Nat}
    (h : b ∈ copyInto d off s) : b ∈ d ∨ b ∈ s := by
  unfold copyInto at h
  rcases List.mem_append.mp h with h1 | h2
  · rcases List.mem_append.mp h1 with h3 | h4
    · exact Or.inl (List.take_subset _ _ h3)
    · exact Or.inr h4
  · exact Or.inl (List.drop_subset _ _ h2)

theorem searchMagic_subset : ∀ {src rest : List Nat},
    searchMagic src = some rest → ∀ b ∈ rest, b ∈ src := by
  intro src
  induction src with
  | nil => intro rest h; simp [searchMagic] at h
  | cons a tl ih =>
    intro rest h b hb
    by_cases ha : a = MAV_STX_V2
    · simp [searchMagic, ha] at h
      subst h
      exact List.mem_cons_of_mem _ hb
    · simp [searchMagic, ha] at h
      exact List.mem_cons_of_mem _ (ih h b hb)

/-! ### The decoder invariant (C1) -/

/-- Well-formedness of a codec state: the frame buffer has its fixed
280-byte size with byte-valued entries (guaranteed by the `[u8; 280]` type
in the source), the magic byte has been written once the search succeeded,
and the incompatibility flags have been vetted before payload parsing.
Every codec reachable through `new`/`reset`/`decode` satisfies it. -/
def CodecOk (c : Codec) : Prop :=
  c.message.length = 280 ∧
  (∀ b ∈ c.message, b < 256) ∧
  (c.state ≠ .SearchForMagicByte → c.message.getD 0 0 = MAV_STX_V2) ∧
  ((c.state = .ParsePayload ∨ c.state = .CheckCRC) →
    incompatibility_flags c.message &&& (255 ^^^ MAVLINK_SUPPORTED_IFLAGS) = 0)

instance : DecidablePred CodecOk := fun c => by
  unfold CodecOk
  infer_instance

theorem codecOk_new : CodecOk Codec.new := by
  refine ⟨List.length_replicate 280 0, ?_, ?_, ?_⟩
  · intro b hb
    have hb' : b ∈ List.replicate 280 0 := hb
    rw [List.eq_of_mem_replicate hb']
    omega
  · intro h
    exact absurd rfl h
  · intro h
    rcases h with h | h <;> exact absurd h (by simp [Codec.new])

/-- The `CheckCRC` success arm is the only way `decode` returns a frame:
it hands back the codec's own buffer unchanged, with the CRC verified. -/
theorem step_yield_inv {extraCrc : Nat → Nat} {c : Codec} {src : List Nat}
    {f : List Nat} {c' : Codec} {s' : List Nat}
    (h : decodeStep extraCrc c src = .yield f c' s') :
    c' = c ∧ f = c.message ∧ c.state = .CheckCRC ∧ s' = src ∧
      has_valid_crc extraCrc c.message = true := by
  obtain ⟨st, msg⟩ := c
  cases st <;> simp only [decodeStep] at h
  case SearchForMagicByte =>
    cases hsm : searchMagic src <;> rw [hsm] at h <;> exact absurd h (by simp)
  case ParseHeader =>
    split at h
    · split at h <;> exact absurd h (by simp)
    · exact absurd h (by simp)
  case ParsePayload =>
    split at h <;> exact absurd h (by simp)
  case CheckCRC =>
    split at h
    · rw [StepRes.yield.injEq] at h
      obtain ⟨rfl, rfl, rfl⟩ := h
      exact ⟨rfl, rfl, rfl, rfl, by assumption⟩
    · exact absurd h (by simp)

/-- `continue` transitions preserve well-formedness (and the byte bound on
what is left of the source buffer). -/
theorem step_cont_ok {extraCrc : Nat → Nat} {c : Codec} {src : List Nat}
    {c' : Codec} {s' : List Nat} (hc : CodecOk c) (hsrc : ∀ b ∈ src, b < 256)
    (h : decodeStep extraCrc c src = .cont c' s') :
    CodecOk c' ∧ ∀ b ∈ s', b < 256 := by
  obtain ⟨hlen, hbytes, hmagic, hflags⟩ := hc
  obtain ⟨st, msg⟩ := c
  simp only at hlen hbytes hmagic hflags
  cases st <;> simp only [decodeStep] at h
  case SearchForMagicByte =>
    cases hsm : searchMagic src <;> rw [hsm] at h
    · exact absurd h (by simp)
    case some rest =>
      rw [StepRes.cont.injEq] at h
      obtain ⟨rfl, rfl⟩ := h
      refine ⟨⟨by simpa using hlen, ?_, ?_, ?_⟩, ?_⟩
      · intro b hb
        rcases List.mem_or_eq_of_mem_set hb with hb' | rfl
        · exact hbytes b hb'
        · simp [MAV_STX_V2]
      · intro _
        exact getD_set_zero (by omega)
      · intro hcase
        rcases hcase with hcase | hcase <;> simp at hcase
      · intro b hb
        exact hsrc b (searchMagic_subset hsm b hb)
  case ParseHeader =>
    split at h
    case isTrue hlen9 =>
      split at h
      case isTrue hbad =>
        rw [StepRes.cont.injEq] at h
        obtain ⟨rfl, rfl⟩ := h
        exact ⟨codecOk_new, hsrc⟩
      case isFalse hgood =>
        rw [StepRes.cont.injEq] at h
        obtain ⟨rfl, rfl⟩ := h
        have htlen : (src.take HEADER_SIZE).length = HEADER_SIZE := by
          simp [List.length_take]
          omega
        refine ⟨⟨?_, ?_, ?_, ?_⟩, hsrc⟩
        · simp only
          rw [copyInto_length (by rw [htlen]; simp [HEADER_SIZE]; omega)]
          exact hlen
        · intro b hb
          rcases mem_copyInto hb with hb' | hb'
          · exact hbytes b hb'
          · exact hsrc b (List.take_subset _ _ hb')
        · intro _
          simp only
          rw [copyInto_getD_lt (by omega) (by omega)]
          exact hmagic (by simp)
        · intro _
          simpa using Nat.eq_zero_of_not_pos hgood
    case isFalse =>
      exact absurd h (by simp)
  case ParsePayload =>
    split at h
    case isTrue hlenOk =>
      rw [StepRes.cont.injEq] at h
      obtain ⟨rfl, rfl⟩ := h
      have hpl : payload_length msg ≤ 255 := by
        have h1 : (1 : Nat) < msg.length := by omega
        have : msg.getD 1 0 < 256 := by
          rw [List.getD_eq_getElem _ _ h1]
          exact hbytes _ (List.getElem_mem h1)
        simpa [payload_length] using Nat.lt_succ_iff.mp this
      have hsig : signature_lenght msg ≤ 13 := by
        unfold signature_lenght
        split <;> omega
      have htr : trailingLen msg ≤ 270 := by
        unfold trailingLen
        omega
      have htake : ((src.drop HEADER_SIZE).take (trailingLen msg)).length
          = trailingLen msg := by
        simp [List.length_take, List.length_drop, HEADER_SIZE] at hlenOk ⊢
        omega
      refine ⟨⟨?_, ?_, ?_, ?_⟩, hsrc⟩
      · simp only
        rw [copyInto_length (by rw [htake]; omega)]
        exact hlen
      · intro b hb
        rcases mem_copyInto hb with hb' | hb'
        · exact hbytes b hb'
        · exact hsrc b (List.drop_subset _ _ (List.take_subset _ _ hb'))
      · intro _
        simp only
        rw [copyInto_getD_lt (by omega) (by omega)]
        exact hmagic (by simp)
      · intro _
        simp only [incompatibility_flags]
        rw [copyInto_getD_lt (by omega) (by omega)]
        exact hflags (Or.inl rfl)
    case isFalse =>
      exact absurd h (by simp)
  case CheckCRC =>
    split at h
    · exact absurd h (by simp)
    · rw [StepRes.cont.injEq] at h
      obtain ⟨rfl, rfl⟩ := h
      exact ⟨codecOk_new, hsrc⟩

/-! ### Appending bytes later commutes with stalled decoding -/

theorem step_ext_yield {extraCrc : Nat → Nat} {c : Codec} {src : List Nat}
    {f : List Nat} {c' : Codec} {s' : List Nat} (ext : List Nat)
    (h : decodeStep extraCrc c src = .yield f c' s') :
    decodeStep extraCrc c (src ++ ext) = .yield f c' (s' ++ ext) := by
  obtain ⟨hc', hf, hst, hs', hcrc⟩ := step_yield_inv h
  obtain ⟨st, msg⟩ := c
  simp only at hst hcrc hf
  subst hst
  subst hc'
  subst hf
  subst hs'
  simp only [decodeStep]
  rw [if_pos hcrc]

theorem step_ext_cont {extraCrc : Nat → Nat} {c : Codec} {src : List Nat}
    {c' : Codec} {s' : List Nat} (ext : List Nat)
    (h : decodeStep extraCrc c src = .cont c' s') :
    decodeStep extraCrc c (src ++ ext) = .cont c' (s' ++ ext) := by
  obtain ⟨st, msg⟩ := c
  cases st <;> simp only [decodeStep] at h ⊢
  case SearchForMagicByte =>
    cases hsm : searchMagic src <;> rw [hsm] at h
    · exact absurd h (by simp)
    case some rest =>
      rw [StepRes.cont.injEq] at h
      obtain ⟨rfl, rfl⟩ := h
      rw [searchMagic_append_some ext hsm]
  case ParseHeader =>
    split at h
    case isTrue hlen9 =>
      rw [if_pos (by simp; omega : HEADER_SIZE ≤ (src ++ ext).length),
        List.take_append_of_le_length hlen9]
      split at h
      case isTrue hbad =>
        rw [StepRes.cont.injEq] at h
        obtain ⟨rfl, rfl⟩ := h
        rw [if_pos hbad]
      case isFalse hgood =>
        rw [StepRes.cont.injEq] at h
        obtain ⟨rfl, rfl⟩ := h
        rw [if_neg hgood]
    case isFalse =>
      exact absurd h (by simp)
  case ParsePayload =>
    split at h
    case isTrue hlenOk =>
      rw [StepRes.cont.injEq] at h
      obtain ⟨rfl, rfl⟩ := h
      rw [if_pos (by simp; omega : HEADER_SIZE + trailingLen msg ≤ (src ++ ext).length),
        List.drop_append_of_le_length (by omega : HEADER_SIZE ≤ src.length),
        List.take_append_of_le_length (by simp [List.length_drop]; omega :
          trailingLen msg ≤ (src.drop HEADER_SIZE).length)]
    case isFalse =>
      exact absurd h (by simp)
  case CheckCRC =>
    split at h
    · exact absurd h (by simp)
    case isFalse hbad =>
      rw [StepRes.cont.injEq] at h
      obtain ⟨rfl, rfl⟩ := h
      rw [if_neg hbad]

theorem step_ext_needMore {extraCrc : Nat → Nat} {c : Codec} {src : List Nat}
    {c' : Codec} {s' : List Nat} (ext : List Nat)
    (h : decodeStep extraCrc c src = .needMore c' s') :
    decodeStep extraCrc c (src ++ ext) = decodeStep extraCrc c' (s' ++ ext) := by
  obtain ⟨st, msg⟩ := c
  cases st <;> simp only [decodeStep] at h
  case SearchForMagicByte =>
    cases hsm : searchMagic src <;> rw [hsm] at h
    case none =>
      rw [StepRes.needMore.injEq] at h
      obtain ⟨rfl, rfl⟩ := h
      simp only [decodeStep, List.nil_append, searchMagic_append_none ext hsm]
    case some =>
      exact absurd h (by simp)
  case ParseHeader =>
    split at h
    · split at h <;> exact absurd h (by simp)
    · rw [StepRes.needMore.injEq] at h
      obtain ⟨rfl, rfl⟩ := h
      rfl
  case ParsePayload =>
    split at h
    · exact absurd h (by simp)
    · rw [StepRes.needMore.injEq] at h
      obtain ⟨rfl, rfl⟩ := h
      rfl
  case CheckCRC =>
    split at h <;> exact absurd h (by simp)

/-- If a call stalls ("no frame yet"), appending more bytes afterwards
gives the same overall outcome as re-running the original call on the
extended buffer: no decoding progress is lost between calls. -/
theorem decode_ext {extraCrc : Nat → Nat} {c : Codec} {src : List Nat}
    {c' : Codec} {s' : List Nat} (ext : List Nat)
    (h : decode extraCrc c src = (none, c', s')) :
    decode extraCrc c (src ++ ext) = decode extraCrc c' (s' ++ ext) := by
  have hf := decode_toFuel extraCrc c src
  rw [h] at hf
  clear h
  generalize 4 * src.length + 4 = fuel at hf
  induction fuel generalizing c src with
  | zero => simp [decodeFuel] at hf
  | succ n ih =>
    simp only [decodeFuel] at hf
    cases hstep : decodeStep extraCrc c src <;> rw [hstep] at hf
    case yield => simp at hf
    case needMore c2 s2 =>
      simp only [Option.some.injEq, Prod.mk.injEq] at hf
      obtain ⟨-, rfl, rfl⟩ := hf
      exact decode_step_congr (step_ext_needMore ext hstep)
    case cont c2 s2 =>
      rw [decode_of_cont (step_ext_cont ext hstep)]
      exact ih hf

/-! ### Valid frames and one-shot decoding -/

/-- The raw-frame buffer corresponding to wire bytes `F`: the 280-byte
array holding `F` followed by zeros. -/
def padFrame (F : List Nat) : List Nat := F ++ List.replicate (280 - F.length) 0

/-- A valid v2 wire frame: starts with the marker byte, all entries are
bytes, only supported incompatibility flags, total length exactly
10 + payload_length + 2 + signature length, and the stored checksum agrees
with the recomputed one. -/
def ValidFrame (extraCrc : Nat → Nat) (F : List Nat) : Prop :=
  F.getD 0 0 = MAV_STX_V2 ∧
  (∀ b ∈ F, b < 256) ∧
  F.getD 2 0 &&& (255 ^^^ MAVLINK_SUPPORTED_IFLAGS) = 0 ∧
  F.length = 10 + F.getD 1 0 + 2 +
    (if F.getD 2 0 &&& MAVLINK_IFLAG_SIGNED > 0 then 13 else 0) ∧
  has_valid_crc extraCrc (padFrame F) = true

instance (extraCrc : Nat → Nat) : DecidablePred (ValidFrame extraCrc) := fun F => by
  unfold ValidFrame
  infer_instance

/-- Copying the 9 header bytes and then the trailing bytes of `MAV_STX_V2 :: t`
into a fresh buffer whose magic byte is set produces the padded frame. -/
theorem parse_message_eq {t : List Nat} {k : Nat} (hlen : t.length = 9 + k)
    (hk : k ≤ 270) :
    copyInto (copyInto (newMessage.set 0 MAV_STX_V2) 1 (t.take 9)) 10 (t.drop 9)
      = (MAV_STX_V2 :: t) ++ List.replicate (270 - k) 0 := by
  have hA : newMessage.set 0 MAV_STX_V2 = [MAV_STX_V2] ++ List.replicate 279 0 := rfl
  have ht9 : (t.take 9).length = 9 := by simp [List.length_take]; omega
  have htd : (t.drop 9).length = k := by simp [List.length_drop]; omega
  have hM1 : copyInto (newMessage.set 0 MAV_STX_V2) 1 (t.take 9)
      = ([MAV_STX_V2] ++ t.take 9) ++ List.replicate 270 0 := by
    unfold copyInto
    rw [hA, ht9,
      List.take_left' (show ([MAV_STX_V2] : List Nat).length = 1 from rfl),
      show (1 + 9 : Nat) = ([MAV_STX_V2] : List Nat).length + 9 from rfl,
      List.drop_append, List.drop_replicate]
  rw [hM1]
  unfold copyInto
  rw [htd,
    List.take_left' (show ([MAV_STX_V2] ++ t.take 9).length = 10 by simp [ht9]),
    show (10 + k : Nat) = ([MAV_STX_V2] ++ t.take 9).length + k by simp [ht9],
    List.drop_append, List.drop_replicate]
  calc (([MAV_STX_V2] ++ t.take 9) ++ t.drop 9) ++ List.replicate (270 - k) 0
      = [MAV_STX_V2] ++ ((t.take 9 ++ t.drop 9) ++ List.replicate (270 - k) 0) := by
        simp [List.append_assoc]
    _ = (MAV_STX_V2 :: t) ++ List.replicate (270 - k) 0 := by
        rw [List.take_append_drop]
        rfl

/-- Decoding a fresh codec on a buffer that starts with a valid frame `F`
returns exactly `F` (padded to the 280-byte buffer), leaves the codec in
`CheckCRC` holding that frame, and consumes only the leading magic byte. -/
theorem decode_fresh_valid {extraCrc : Nat → Nat} {F : List Nat}
    (hF : ValidFrame extraCrc F) (ext : List Nat) :
    decode extraCrc Codec.new (F ++ ext) =
      (some (padFrame F), ⟨.CheckCRC, padFrame F⟩, F.drop 1 ++ ext) := by
  obtain ⟨hmagic, hbytes, hflags, hlen, hcrc⟩ := hF
  obtain ⟨b, t, rfl⟩ : ∃ b t, F = b :: t := by
    cases F with
    | nil => simp at hlen
    | cons b t => exact ⟨b, t, rfl⟩
  have hb : b = MAV_STX_V2 := by simpa using hmagic
  subst hb
  have hpl2 : (MAV_STX_V2 :: t).getD 1 0 = t.getD 0 0 := rfl
  have hfl2 : (MAV_STX_V2 :: t).getD 2 0 = t.getD 1 0 := rfl
  rw [hpl2] at hlen
  rw [hfl2] at hlen hflags
  have hplb : t.getD 0 0 ≤ 255 := by
    rcases Nat.lt_or_ge 0 t.length with h0 | h0
    · have := hbytes (t.getD 0 0)
        (by rw [List.getD_eq_getElem _ _ h0]
            exact List.mem_cons_of_mem _ (List.getElem_mem h0))
      omega
    · rw [List.getD_eq_default _ _ h0]
      omega
  set k : Nat := t.getD 0 0 + 2 +
    (if t.getD 1 0 &&& MAVLINK_IFLAG_SIGNED > 0 then 13 else 0) with hk
  have htlen : t.length = 9 + k := by
    rw [List.length_cons] at hlen
    omega
  have hkle : k ≤ 270 := by
    rw [hk]
    split <;> omega
  -- step 1: search for and consume the magic byte
  have hstep1 : decodeStep extraCrc Codec.new ((MAV_STX_V2 :: t) ++ ext) =
      .cont ⟨.ParseHeader, newMessage.set 0 MAV_STX_V2⟩ (t ++ ext) := by
    show decodeStep extraCrc ⟨.SearchForMagicByte, newMessage⟩ _ = _
    simp only [decodeStep, List.cons_append]
    rw [show searchMagic (MAV_STX_V2 :: (t ++ ext)) = some (t ++ ext) by
      simp [searchMagic]]
  rw [decode_of_cont hstep1]
  -- facts about the buffer after the header copy
  have hm0len : (newMessage.set 0 MAV_STX_V2).length = 280 := by
    rw [List.length_set]
    exact List.length_replicate 280 0
  have ht9 : ((t ++ ext).take HEADER_SIZE) = t.take 9 :=
    List.take_append_of_le_length (by simp [HEADER_SIZE]; omega)
  set M1 : List Nat := copyInto (newMessage.set 0 MAV_STX_V2) 1 (t.take 9) with hM1def
  have ht9len : (t.take 9).length = 9 := by simp [List.length_take]; omega
  have hM1getD1 : M1.getD 1 0 = t.getD 0 0 := by
    rw [hM1def, copyInto_getD_mid (by omega) (by rw [ht9len]; omega) (by omega)]
    exact getD_take_of_lt (by omega)
  have hM1getD2 : M1.getD 2 0 = t.getD 1 0 := by
    rw [hM1def, copyInto_getD_mid (by omega) (by rw [ht9len]; omega) (by omega)]
    exact getD_take_of_lt (by omega)
  -- step 2: header parse succeeds and the flags are supported
  have hstep2 : decodeStep extraCrc ⟨.ParseHeader, newMessage.set 0 MAV_STX_V2⟩
      (t ++ ext) = .cont ⟨.ParsePayload, M1⟩ (t ++ ext) := by
    simp only [decodeStep]
    rw [if_pos (by simp [HEADER_SIZE]; omega : HEADER_SIZE ≤ (t ++ ext).length), ht9]
    rw [if_neg (by
      rw [← hM1def]
      simp only [incompatibility_flags]
      rw [hM1getD2, hflags]
      omega)]
  rw [decode_of_cont hstep2]
  -- step 3: payload, checksum and signature are copied
  have htr : trailingLen M1 = k := by
    simp only [trailingLen, payload_length, signature_lenght, incompatibility_flags,
      hM1getD1, hM1getD2]
  have htdrop : ((t ++ ext).drop HEADER_SIZE).take (trailingLen M1) = t.drop 9 := by
    rw [List.drop_append_of_le_length (by simp [HEADER_SIZE]; omega), htr]
    have : (t.drop 9).length = k := by simp [List.length_drop]; omega
    rw [show (HEADER_SIZE : Nat) = 9 from rfl,
      List.take_append_of_le_length (by omega)]
    rw [List.take_of_length_le (by omega)]
  have hM2 : copyInto M1 10 (((t ++ ext).drop HEADER_SIZE).take (trailingLen M1))
      = padFrame (MAV_STX_V2 :: t) := by
    rw [htdrop, hM1def, parse_message_eq htlen hkle]
    simp [padFrame, htlen]
    omega
  have hstep3 : decodeStep extraCrc ⟨.ParsePayload, M1⟩ (t ++ ext) =
      .cont ⟨.CheckCRC, padFrame (MAV_STX_V2 :: t)⟩ (t ++ ext) := by
    simp only [decodeStep]
    rw [if_pos (by simp [HEADER_SIZE]; omega : HEADER_SIZE + trailingLen M1 ≤ (t ++ ext).length)]
    rw [hM2]
  rw [decode_of_cont hstep3]
  -- step 4: the checksum is correct, so the frame is returned
  have hstep4 : decodeStep extraCrc ⟨.CheckCRC, padFrame (MAV_STX_V2 :: t)⟩ (t ++ ext) =
      .yield (padFrame (MAV_STX_V2 :: t)) ⟨.CheckCRC, padFrame (MAV_STX_V2 :: t)⟩
        (t ++ ext) := by
    simp only [decodeStep]
    rw [if_pos hcrc]
  rw [decode_of_yield hstep4]
  rfl

/-- Convenience form of `decode_fresh_valid` for a buffer holding exactly
one valid frame. -/
theorem decode_fresh_valid_nil {extraCrc : Nat → Nat} {F : List Nat}
    (hF : ValidFrame extraCrc F) :
    decode extraCrc Codec.new F =
      (some (padFrame F), ⟨.CheckCRC, padFrame F⟩, F.drop 1) := by
  have h := decode_fresh_valid hF []
  simpa using h

/-- Decoding a fresh codec on a strict prefix of a valid frame never
returns a frame: the call stalls waiting for more bytes. -/
theorem decode_fresh_prefix_stall {extraCrc : Nat → Nat} {F p q : List Nat}
    (hF : ValidFrame extraCrc F) (hpq : p ++ q = F) (hq : q ≠ []) :
    (decode extraCrc Codec.new p).1 = none := by
  obtain ⟨hmagic, hbytes, hflags, hlen, hcrc⟩ := hF
  cases p with
  | nil =>
    rw [decode_of_needMore
      (rfl : decodeStep extraCrc Codec.new [] = .needMore Codec.new [])]
  | cons b t' =>
    obtain ⟨t, ht⟩ : ∃ t, F = b :: t := ⟨t' ++ q, by rw [← hpq]; rfl⟩
    subst ht
    have hb : b = MAV_STX_V2 := by simpa using hmagic
    subst hb
    have htq : t' ++ q = t := by
      injection hpq
    have hqlen : 1 ≤ q.length := by
      cases q with
      | nil => exact absurd rfl hq
      | cons _ _ => simp
    have ht'lt : t'.length < t.length := by
      rw [← htq]
      simp
      omega
    have hfl2 : (MAV_STX_V2 :: t).getD 2 0 = t.getD 1 0 := rfl
    rw [hfl2] at hflags
    rw [show (MAV_STX_V2 :: t).getD 1 0 = t.getD 0 0 from rfl] at hlen
    rw [hfl2] at hlen
    set k : Nat := t.getD 0 0 + 2 +
      (if t.getD 1 0 &&& MAVLINK_IFLAG_SIGNED > 0 then 13 else 0) with hk
    have htlen : t.length = 9 + k := by
      rw [List.length_cons] at hlen
      omega
    have hstep1 : decodeStep extraCrc Codec.new (MAV_STX_V2 :: t') =
        .cont ⟨.ParseHeader, newMessage.set 0 MAV_STX_V2⟩ t' := by
      show decodeStep extraCrc ⟨.SearchForMagicByte, newMessage⟩ _ = _
      simp only [decodeStep]
      rw [show searchMagic (MAV_STX_V2 :: t') = some t' by simp [searchMagic]]
    rw [decode_of_cont hstep1]
    by_cases hlen9 : HEADER_SIZE ≤ t'.length
    · -- header available but trailing bytes cannot all be present
      have hm0len : (newMessage.set 0 MAV_STX_V2).length = 280 := by
        rw [List.length_set]
        exact List.length_replicate 280 0
      have hlen9' : 9 ≤ t'.length := by simpa [HEADER_SIZE] using hlen9
      have ht9 : t'.take HEADER_SIZE = t.take 9 := by
        rw [show (HEADER_SIZE : Nat) = 9 from rfl, ← htq,
          List.take_append_of_le_length hlen9']
      set M1 : List Nat := copyInto (newMessage.set 0 MAV_STX_V2) 1 (t.take 9)
        with hM1def
      have ht9len : (t.take 9).length = 9 := by simp [List.length_take]; omega
      have hM1getD1 : M1.getD 1 0 = t.getD 0 0 := by
        rw [hM1def, copyInto_getD_mid (by omega) (by rw [ht9len]; omega) (by omega)]
        exact getD_take_of_lt (by omega)
      have hM1getD2 : M1.getD 2 0 = t.getD 1 0 := by
        rw [hM1def, copyInto_getD_mid (by omega) (by rw [ht9len]; omega) (by omega)]
        exact getD_take_of_lt (by omega)
      have hstep2 : decodeStep extraCrc ⟨.ParseHeader, newMessage.set 0 MAV_STX_V2⟩
          t' = .cont ⟨.ParsePayload, M1⟩ t' := by
        simp only [decodeStep]
        rw [if_pos hlen9, ht9]
        rw [if_neg (by
          rw [← hM1def]
          simp only [incompatibility_flags]
          rw [hM1getD2, hflags]
          omega)]
      rw [decode_of_cont hstep2]
      have htr : trailingLen M1 = k := by
        simp only [trailingLen, payload_length, signature_lenght,
          incompatibility_flags, hM1getD1, hM1getD2]
      have hstep3 : decodeStep extraCrc ⟨.ParsePayload, M1⟩ t' =
          .needMore ⟨.ParsePayload, M1⟩ t' := by
        simp only [decodeStep]
        rw [if_neg (by rw [htr, show (HEADER_SIZE : Nat) = 9 from rfl]; omega)]
      rw [decode_of_needMore hstep3]
    · -- not even the header is available
      have hstep2 : decodeStep extraCrc ⟨.ParseHeader, newMessage.set 0 MAV_STX_V2⟩
          t' = .needMore ⟨.ParseHeader, newMessage.set 0 MAV_STX_V2⟩ t' := by
        simp only [decodeStep]
        rw [if_neg hlen9]
      rw [decode_of_needMore hstep2]

/-- Feed a list of chunks: append each chunk to the buffer, call `decode`,
and stop at the first returned frame ("repeated calls" with extra empty
chunks are allowed, since an empty chunk changes nothing). -/
def feedChunks (extraCrc : Nat → Nat) :
    Codec → List Nat → List (List Nat) → Option (List Nat) × Codec × List Nat
  | c, buf, [] => (none, c, buf)
  | c, buf, ch :: rest =>
    match decode extraCrc c (buf ++ ch) with
    | (some f, c', buf') => (some f, c', buf')
    | (none, c', buf') => feedChunks extraCrc c' buf' rest

theorem feedChunks_complete {extraCrc : Nat → Nat} {F : List Nat}
    (hF : ValidFrame extraCrc F) :
    ∀ (chunks : List (List Nat)) (p : List Nat) (c : Codec) (buf : List Nat),
      decode extraCrc Codec.new p = (none, c, buf) →
      p ++ chunks.flatten = F →
      (feedChunks extraCrc c buf chunks).1 = some (padFrame F) := by
  intro chunks
  induction chunks with
  | nil =>
    intro p c buf hstall hjoin
    simp at hjoin
    subst hjoin
    rw [decode_fresh_valid_nil hF] at hstall
    simp at hstall
  | cons ch rest ih =>
    intro p c buf hstall hjoin
    have hext := decode_ext ch hstall
    by_cases hfull : p ++ ch = F
    · have hdec : decode extraCrc c (buf ++ ch) =
          (some (padFrame F), ⟨.CheckCRC, padFrame F⟩, F.drop 1) := by
        rw [← hext, hfull, decode_fresh_valid_nil hF]
      simp only [feedChunks]
      rw [hdec]
    · have hq : rest.flatten ≠ [] := by
        intro hnil
        apply hfull
        have := hjoin
        simp [List.flatten, hnil] at this
        exact this
      have hpq : (p ++ ch) ++ rest.flatten = F := by
        rw [List.append_assoc]
        simpa [List.flatten] using hjoin
      have hstall2 : (decode extraCrc c (buf ++ ch)).1 = none := by
        rw [← hext]
        exact decode_fresh_prefix_stall hF hpq hq
      rcases hr : decode extraCrc c (buf ++ ch) with ⟨r1, c2, buf2⟩
      rw [hr] at hstall2
      simp only at hstall2
      subst hstall2
      simp only [feedChunks]
      rw [hr]
      exact ih (p ++ ch) c2 buf2 (by rw [hext, hr]) hpq

/-- Skipping marker-free garbage at the front of the buffer does not
change the outcome of a search-state decode call. -/
theorem decode_skip_garbage {extraCrc : Nat → Nat} {g : List Nat}
    (rest : List Nat) (hg : ∀ b ∈ g, b ≠ MAV_STX_V2) (msg : List Nat) :
    decode extraCrc ⟨.SearchForMagicByte, msg⟩ (g ++ rest)
      = decode extraCrc ⟨.SearchForMagicByte, msg⟩ rest := by
  apply decode_step_congr
  simp only [decodeStep]
  rw [searchMagic_append_none rest (searchMagic_none_of_no_magic hg)]

theorem validFrame_ne_nil {extraCrc : Nat → Nat} {F : List Nat}
    (hF : ValidFrame extraCrc F) : F ≠ [] := by
  intro hnil
  have hlen := hF.2.2.2.1
  rw [hnil] at hlen
  simp at hlen

theorem length_le_flatten_length : ∀ {Fs : List (List Nat)},
    (∀ F ∈ Fs, F ≠ []) → Fs.length ≤ Fs.flatten.length := by
  intro Fs
  induction Fs with
  | nil => simp
  | cons F rest ih =>
    intro h
    have h1 : 0 < F.length := List.length_pos.mpr (h F (by simp))
    have h2 := ih fun G hG => h G (by simp [hG])
    have h3 : (F :: rest).flatten.length = F.length + rest.flatten.length := by
      simp only [List.flatten_cons, List.length_append]
    rw [h3, List.length_cons]
    omega

/-- Driving `decodeAllFuel` over marker-free garbage followed by
concatenated valid frames (each free of stray marker bytes after its
leading one) yields exactly those frames, in order. -/
theorem decodeAllFuel_spec {extraCrc : Nat → Nat} :
    ∀ (Fs : List (List Nat)) (g : List Nat) (fuel : Nat),
      (∀ b ∈ g, b ≠ MAV_STX_V2) →
      (∀ F ∈ Fs, ValidFrame extraCrc F ∧ ∀ b ∈ F.drop 1, b ≠ MAV_STX_V2) →
      Fs.length < fuel →
      decodeAllFuel extraCrc fuel Codec.new (g ++ Fs.flatten)
        = Fs.map padFrame := by
  intro Fs
  induction Fs with
  | nil =>
    intro g fuel hg _ hfuel
    obtain ⟨m, rfl⟩ : ∃ m, fuel = m + 1 := ⟨fuel - 1, by omega⟩
    have hstep : decodeStep extraCrc Codec.new (g ++ ([] : List (List Nat)).flatten)
        = .needMore Codec.new [] := by
      show decodeStep extraCrc ⟨.SearchForMagicByte, newMessage⟩ _ = _
      simp only [decodeStep, List.flatten_nil, List.append_nil]
      rw [searchMagic_none_of_no_magic hg]
      rfl
    simp only [decodeAllFuel]
    rw [decode_of_needMore hstep]
    rfl
  | cons F rest ih =>
    intro g fuel hg hFs hfuel
    obtain ⟨m, rfl⟩ : ∃ m, fuel = m + 1 := ⟨fuel - 1, by omega⟩
    obtain ⟨hF, hFtail⟩ := hFs F (by simp)
    have hdec : decode extraCrc Codec.new (g ++ (F :: rest).flatten)
        = (some (padFrame F), ⟨.CheckCRC, padFrame F⟩, F.drop 1 ++ rest.flatten) := by
      show decode extraCrc ⟨.SearchForMagicByte, newMessage⟩ _ = _
      rw [List.flatten_cons]
      rw [decode_skip_garbage (F ++ rest.flatten) hg newMessage]
      exact decode_fresh_valid hF rest.flatten
    simp only [decodeAllFuel]
    rw [hdec]
    have hrec := ih (F.drop 1) m hFtail
      (fun G hG => hFs G (by simp [hG]))
      (by simp only [List.length_cons] at hfuel; omega)
    show padFrame F :: decodeAllFuel extraCrc m
        (Codec.reset ⟨.CheckCRC, padFrame F⟩) (F.drop 1 ++ rest.flatten)
      = List.map padFrame (F :: rest)
    rw [show Codec.reset ⟨.CheckCRC, padFrame F⟩ = Codec.new from rfl, hrec,
      List.map_cons]

/-- Any frame a (well-formed) fuel run returns starts with the marker,
has vetted incompatibility flags and a re-verified CRC. -/
theorem decodeFuel_yield_props {extraCrc : Nat → Nat} : ∀ {fuel : Nat} {c : Codec}
    {src : List Nat} {f : List Nat} {c' : Codec} {s' : List Nat},
    CodecOk c → (∀ b ∈ src, b < 256) →
    decodeFuel extraCrc fuel c src = some (some f, c', s') →
    f.getD 0 0 = MAV_STX_V2 ∧
      incompatibility_flags f &&& (255 ^^^ MAVLINK_SUPPORTED_IFLAGS) = 0 ∧
      has_valid_crc extraCrc f = true := by
  intro fuel
  induction fuel with
  | zero => intro c src f c' s' _ _ h; simp [decodeFuel] at h
  | succ n ih =>
    intro c src f c' s' hc hsrc h
    simp only [decodeFuel] at h
    cases hstep : decodeStep extraCrc c src <;> rw [hstep] at h
    case yield g c2 s2 =>
      simp only [Option.some.injEq, Prod.mk.injEq] at h
      obtain ⟨hg, _, _⟩ := h
      obtain ⟨_, hf, hst, _, hcrc⟩ := step_yield_inv hstep
      obtain ⟨_, _, hmagic, hflags⟩ := hc
      subst hf
      rcases hg with rfl
      exact ⟨hmagic (by rw [hst]; simp), hflags (Or.inr hst), hcrc⟩
    case needMore c2 s2 =>
      simp at h
    case cont c2 s2 =>
      obtain ⟨hc2, hs2⟩ := step_cont_ok hc hsrc hstep
      exact ih hc2 hs2 h

/-- If `decode` returns a frame, the codec is left in `CheckCRC` holding
exactly that frame, whose CRC is valid. -/
theorem decode_some_inv {extraCrc : Nat → Nat} {c : Codec} {src : List Nat}
    {f : List Nat} {c' : Codec} {s' : List Nat}
    (h : decode extraCrc c src = (some f, c', s')) :
    c' = ⟨.CheckCRC, f⟩ ∧ has_valid_crc extraCrc f = true := by
  have hf := decode_toFuel extraCrc c src
  rw [h] at hf
  clear h
  generalize 4 * src.length + 4 = fuel at hf
  induction fuel generalizing c src with
  | zero => simp [decodeFuel] at hf
  | succ n ih =>
    simp only [decodeFuel] at hf
    cases hstep : decodeStep extraCrc c src <;> rw [hstep] at hf
    case yield g c2 s2 =>
      simp only [Option.some.injEq, Prod.mk.injEq] at hf
      obtain ⟨rfl, rfl, rfl⟩ := hf
      obtain ⟨hc2c, hgm, hst, -, hcrc⟩ := step_yield_inv hstep
      constructor
      · calc _ = c := hc2c
          _ = (⟨c.state, c.message⟩ : Codec) := rfl
          _ = _ := by rw [hst, hgm]
      · rw [hgm]
        exact hcrc
    case needMore c2 s2 =>
      simp at hf
    case cont c2 s2 =>
      exact ih hf

/-- Rust's `Result` return type of `decode`, made explicit: every return
site in the source constructs `Ok(...)`, so the embedding wraps the total
function `decode` in `Except.ok` — no `Err` value is ever produced. -/
def decodeE (extraCrc : Nat → Nat) (c : Codec) (src : List Nat) :
    Except String (Option (List Nat) × Codec × List Nat) :=
  Except.ok (decode extraCrc c src)

/-- C1: For every (well-formed) decoder state and every input buffer,
`decode` never returns `Err`; and whenever it returns a frame, that
frame's first byte is `MAV_STX_V2`, its incompatibility-flags byte has no
bit outside `MAVLINK_SUPPORTED_IFLAGS`, and `has_valid_crc` (which
recomputes the checksum) returns `true` for it. -/
theorem C1_decode_never_errs_and_validates (extraCrc : Nat → Nat) (c : Codec)
    (src : List Nat) (hc : CodecOk c) (hsrc : ∀ b ∈ src, b < 256) :
    (∃ r, decodeE extraCrc c src = Except.ok r) ∧
    ∀ f c' s', decode extraCrc c src = (some f, c', s') →
      f.getD 0 0 = MAV_STX_V2 ∧
      incompatibility_flags f &&& (255 ^^^ MAVLINK_SUPPORTED_IFLAGS) = 0 ∧
      has_valid_crc extraCrc f = true := by
  refine ⟨⟨decode extraCrc c src, rfl⟩, ?_⟩
  intro f c' s' h
  have hf := decode_toFuel extraCrc c src
  rw [h] at hf
  exact decodeFuel_yield_props hc hsrc hf

/-- Witness for C1: decoding the repository's 42-byte test frame from a
fresh codec yields a frame satisfying all three guarantees. -/
theorem C1_witness :
    (padFrame testFrame).getD 0 0 = MAV_STX_V2 ∧
    incompatibility_flags (padFrame testFrame) &&&
      (255 ^^^ MAVLINK_SUPPORTED_IFLAGS) = 0 ∧
    has_valid_crc mockExtraCrc (padFrame testFrame) = true :=
  (C1_decode_never_errs_and_validates mockExtraCrc Codec.new testFrame
    (by decide) (by decide)).2 (padFrame testFrame)
    ⟨.CheckCRC, padFrame testFrame⟩ (testFrame.drop 1) (by decide)

/-- C2: When `decode` returns a frame and `reset` is not called, the
next call on the same source buffer returns the identical frame again,
with the codec state and the source buffer unchanged between the calls. -/
theorem C2_decode_idempotent_without_reset (extraCrc : Nat → Nat) (c : Codec)
    (src : List Nat) (f : List Nat) (c' : Codec) (s' : List Nat)
    (h : decode extraCrc c src = (some f, c', s')) :
    decode extraCrc c' s' = (some f, c', s') := by
  obtain ⟨hc', hcrc⟩ := decode_some_inv h
  subst hc'
  exact decode_of_yield (by simp only [decodeStep]; rw [if_pos hcrc])

/-- Witness for C2: the first call on the test frame returns it; the
second call — without a `reset` — re-returns the identical frame with
codec and buffer unchanged. -/
theorem C2_witness :
    decode mockExtraCrc ⟨.CheckCRC, padFrame testFrame⟩ (testFrame.drop 1)
      = (some (padFrame testFrame), ⟨.CheckCRC, padFrame testFrame⟩,
          testFrame.drop 1) :=
  C2_decode_idempotent_without_reset mockExtraCrc Codec.new testFrame
    (padFrame testFrame) ⟨.CheckCRC, padFrame testFrame⟩ (testFrame.drop 1)
    (by decide)

/-- C3: A single state-machine step removes bytes from the source
buffer only in the magic-search state — one byte at a time, up to and
including the first marker byte (or the whole buffer when it holds no
marker).  In the header-, payload- and CRC-states (accept or reject) the
buffer is left untouched. -/
theorem C3_consume_only_in_search (extraCrc : Nat → Nat) (c : Codec)
    (src : List Nat) :
    (c.state ≠ .SearchForMagicByte → (decodeStep extraCrc c src).src = src) ∧
    (c.state = .SearchForMagicByte →
      ((decodeStep extraCrc c src).src = [] ∧ ∀ b ∈ src, b ≠ MAV_STX_V2) ∨
      ∃ i, i < src.length ∧ src.getD i 0 = MAV_STX_V2 ∧
        (∀ j < i, src.getD j 0 ≠ MAV_STX_V2) ∧
        (decodeStep extraCrc c src).src = src.drop (i + 1)) := by
  obtain ⟨st, msg⟩ := c
  constructor
  · intro hne
    cases st
    case SearchForMagicByte => exact absurd rfl hne
    case ParseHeader =>
      simp only [decodeStep]
      split
      · split <;> rfl
      · rfl
    case ParsePayload =>
      simp only [decodeStep]
      split <;> rfl
    case CheckCRC =>
      simp only [decodeStep]
      split <;> rfl
  · intro heq
    simp only at heq
    subst heq
    rcases searchMagic_characterize src with ⟨hnone, hall⟩ | ⟨i, hi, hmag, hbef, heq2⟩
    · left
      refine ⟨?_, hall⟩
      simp only [decodeStep]
      rw [hnone]
      rfl
    · right
      refine ⟨i, hi, hmag, hbef, ?_⟩
      simp only [decodeStep]
      rw [heq2]
      rfl

/-- Witness for C3: a header-parsing step on a concrete buffer leaves the
buffer untouched. -/
theorem C3_witness :
    (decodeStep mockExtraCrc ⟨.ParseHeader, newMessage⟩ [1, 2, 3]).src
      = [1, 2, 3] :=
  (C3_consume_only_in_search mockExtraCrc ⟨.ParseHeader, newMessage⟩ [1, 2, 3]).1
    (by decide)

/-- C5: For every valid frame `F`, feeding `F`'s bytes in chunks of
arbitrary sizes and alignments (appending to the buffer between calls;
empty chunks model repeated calls without new bytes) eventually returns a
frame bit-identical to `F` (stored in the zero-padded 280-byte frame
buffer). -/
theorem C5_chunked_decode_yields_frame (extraCrc : Nat → Nat) (F : List Nat)
    (chunks : List (List Nat)) (hF : ValidFrame extraCrc F)
    (hchunks : chunks.flatten = F) :
    (feedChunks extraCrc Codec.new [] chunks).1
      = some (F ++ List.replicate (280 - F.length) 0) := by
  have h := feedChunks_complete hF chunks [] Codec.new []
    (decode_of_needMore rfl) (by simpa using hchunks)
  simpa [padFrame] using h

/-- The byte-per-byte chunking of the repository's test frame. -/
def testChunks : List (List Nat) := testFrame.map (fun b => [b])

/-- Witness for C5: byte-per-byte feeding of the 42-byte test frame (the
repository's `test_v2_tokio_codec_decode_byte_per_byte` scenario). -/
theorem C5_witness :
    (feedChunks mockExtraCrc Codec.new [] testChunks).1
      = some (testFrame ++ List.replicate (280 - testFrame.length) 0) :=
  C5_chunked_decode_yields_frame mockExtraCrc testFrame testChunks
    (by decide) (by decide)

/-- C6, counterexample: The claim fails as stated: `outerFrame` is a
single valid frame (N = 1) whose payload contains the valid 12-byte frame
`innerFrame`; feeding it and resetting after each returned frame yields
TWO frames — the leftover bytes after the first frame produce a spurious
extra one. -/
theorem C6_embedded_frame_counterexample :
    ValidFrame mockExtraCrc outerFrame ∧
    decodeAll mockExtraCrc outerFrame
      = [padFrame outerFrame, padFrame innerFrame] := by
  constructor
  · decide
  · decide

/-- C6, amended: For valid frames whose bytes after the leading marker
contain no marker-valued byte (so the leftover bytes of an emitted frame
cannot resynchronize into a spurious frame), feeding N concatenated frames
with a `reset` after each returned frame yields exactly the N frames in
input order — none skipped, none duplicated, no spurious extra. -/
theorem C6_concatenated_frames_amended (extraCrc : Nat → Nat)
    (Fs : List (List Nat))
    (hFs : ∀ F ∈ Fs, ValidFrame extraCrc F ∧ ∀ b ∈ F.drop 1, b ≠ MAV_STX_V2) :
    decodeAll extraCrc Fs.flatten = Fs.map padFrame := by
  have h := decodeAllFuel_spec Fs [] (Fs.flatten.length + 1) (by simp) hFs
    (by
      have := length_le_flatten_length
        (fun F hF => validFrame_ne_nil (hFs F hF).1)
      omega)
  unfold decodeAll
  simpa using h

/-- Witness for C6 (amended): three concatenated copies of the test frame
decode to exactly three frames (the repository's `test_v2_tokio_codec_decode`
scenario). -/
theorem C6_witness :
    decodeAll mockExtraCrc ([testFrame, testFrame, testFrame]).flatten
      = [padFrame testFrame, padFrame testFrame, padFrame testFrame] := by
  have h := C6_concatenated_frames_amended mockExtraCrc
    [testFrame, testFrame, testFrame] (by decide)
  simpa using h

/-- C8: Every call to `decode` terminates on every finite buffer: the
loop, run as `decodeFuel`, always completes within `4 * src.length + 4`
iterations (each return to the magic-search state first consumed at least
one byte, which is what the measure `4 * length + stateRank` captures). -/
theorem C8_decode_terminates (extraCrc : Nat → Nat) (c : Codec)
    (src : List Nat) :
    (decodeFuel extraCrc (4 * src.length + 4) c src).isSome = true :=
  decodeFuel_isSome extraCrc _ c src (by have := stateRank_lt_four c.state; omega)

/-! ### The TCP connection layer (`connection/tcp.rs`) -/

/-- `MavHeader`: the logical message header (sequence, system, component). -/
structure MavHeader where
  sequence : Nat
  system_id : Nat
  component_id : Nat
deriving DecidableEq, Repr

/-- Whether the transport was established by connecting out (`tcpout`) or
by accepting an incoming connection (`tcpin`). -/
inductive TcpMode where
  | outbound
  | inbound
deriving DecidableEq, Repr

/-- `TcpConnection`, with the transport abstracted to the mode it was
established in and the address it was established against; `sequence` is
the `TcpWrite.sequence` counter behind the writer mutex.  Addresses are
embedded as character lists (`String.data`): Rust's `starts_with` becomes
`List.isPrefixOf` and the slicing `&s[n..]` becomes `List.drop n`. -/
structure TcpConnection where
  address : List Char
  sequence : Nat
  mode : TcpMode
  target : List Char
deriving DecidableEq, Repr

/-- `tcpout` (success path): connects out to `address`, stores
`address.to_string()` — with no protocol prefix — and starts the sequence
counter at 0. -/
def tcpout (address : List Char) : TcpConnection :=
  { address := address, sequence := 0, mode := .outbound, target := address }

/-- `tcpin` (success path): binds and accepts on `address`; counter 0. -/
def tcpin (address : List Char) : TcpConnection :=
  { address := address, sequence := 0, mode := .inbound, target := address }

/-- `select_protocol`: strips the `tcpout:`/`tcpin:` prefix and
dispatches; an unknown prefix is the `AddrNotAvailable` error (`none`). -/
def select_protocol (address : List Char) : Option TcpConnection :=
  if "tcpout:".toList.isPrefixOf address then some (tcpout (address.drop 7))
  else if "tcpin:".toList.isPrefixOf address then some (tcpin (address.drop 6))
  else none

/-- `TcpConnection::reconnect` (success path): re-examines the *stored*
address for a `tcpout:` prefix, strips the corresponding prefix length and
rebuilds the connection, replacing `*self`. -/
def TcpConnection.reconnect (c : TcpConnection) : TcpConnection :=
  if "tcpout:".toList.isPrefixOf c.address then tcpout (c.address.drop 7)
  else tcpin (c.address.drop 6)

/-- `TcpConnection::send`: stamps the current counter into the outgoing
header (keeping the caller's system and component ids), increments the
counter with `wrapping_add(1)` (mod 256) and hands the header to
`write_versioned_msg`.  Returns that header and the updated connection. -/
def TcpConnection.send (c : TcpConnection) (header : MavHeader) :
    MavHeader × TcpConnection :=
  let outHeader : MavHeader :=
    { sequence := c.sequence, system_id := header.system_id,
      component_id := header.component_id }
  (outHeader, { c with sequence := (c.sequence + 1) % 256 })

/-- C4 (code bug): A connection built by
`select_protocol "tcpout:127.0.0.1:5760"` stores the bare address
`"127.0.0.1:5760"`.  `reconnect` looks for the `"tcpout:"` prefix in that
stored address, never finds it, takes the `tcpin` branch and strips six
characters anyway: it rebuilds an inbound listener on `"0.1:5760"` instead
of re-establishing the transport to the original target.  (The sequence
counter does restart at 0 — the only part of the claim the code meets.) -/
theorem C4_reconnect_wrong_target :
    select_protocol "tcpout:127.0.0.1:5760".toList
        = some (tcpout "127.0.0.1:5760".toList) ∧
    (tcpout "127.0.0.1:5760".toList).target = "127.0.0.1:5760".toList ∧
    ((tcpout "127.0.0.1:5760".toList).reconnect).target = "0.1:5760".toList ∧
    ((tcpout "127.0.0.1:5760".toList).reconnect).mode = TcpMode.inbound ∧
    ((tcpout "127.0.0.1:5760".toList).reconnect).sequence = 0 := by
  refine ⟨?_, rfl, ?_, ?_, ?_⟩ <;> decide

/-- C7: `send` stamps the connection's current sequence counter into
the outgoing header, keeps the caller-supplied system and component ids,
and increments the counter modulo 256; at 255 the send still carries 255
and the counter wraps to 0 without panicking or skipping a value. -/
theorem C7_send_stamps_and_wraps (c : TcpConnection) (h : MavHeader) :
    (c.send h).1.sequence = c.sequence ∧
    (c.send h).1.system_id = h.system_id ∧
    (c.send h).1.component_id = h.component_id ∧
    (c.send h).2.sequence = (c.sequence + 1) % 256 ∧
    (c.sequence = 255 → (c.send h).2.sequence = 0) := by
  refine ⟨rfl, rfl, rfl, rfl, ?_⟩
  intro h255
  simp [TcpConnection.send, h255]

/-- Witness for C7 at counter value 255: the counter wraps to 0. -/
theorem C7_witness :
    (({ tcpout "127.0.0.1:14550".toList with sequence := 255 }).send
        ⟨7, 42, 99⟩).2.sequence = 0 :=
  (C7_send_stamps_and_wraps
    { tcpout "127.0.0.1:14550".toList with sequence := 255 }
    ⟨7, 42, 99⟩).2.2.2.2 rfl

/-- A resolved socket address (abstracted to an identifier). -/
abbrev SocketAddr : Type := Nat

/-- Outcome of `to_socket_addrs()` in `tcpout`/`tcpin`: the call can fail
(an `Err` from the resolver) or succeed with a possibly empty list. -/
inductive LookupResult where
  | failed
  | resolved (addrs : List SocketAddr)
deriving DecidableEq, Repr

/-- Outcome of constructing a connection: the code can panic (through
`unwrap`/`expect`), return an `io::Error`, or return the connection. -/
inductive TcpSetupResult where
  | panicked (msg : String)
  | ioError
  | connected (c : TcpConnection)
deriving DecidableEq, Repr

/-- `tcpout` with the address-resolution and connect outcomes explicit:
`.unwrap()` on a failed lookup and `.expect("Host address lookup failed.")`
on an empty list panic before any `?`-style error return is reached. -/
def tcpoutFull (address : List Char) (lookup : LookupResult) (connectOk : Bool) :
    TcpSetupResult :=
  match lookup with
  | .failed => .panicked "called unwrap on an Err value"
  | .resolved [] => .panicked "Host address lookup failed."
  | .resolved (_ :: _) =>
    if connectOk then .connected (tcpout address) else .ioError

/-- `tcpin` with the same treatment (`.expect("Invalid address")`). -/
def tcpinFull (address : List Char) (lookup : LookupResult) (bindOk : Bool)
    (accepted : Bool) : TcpSetupResult :=
  match lookup with
  | .failed => .panicked "called unwrap on an Err value"
  | .resolved [] => .panicked "Invalid address"
  | .resolved (_ :: _) =>
    if bindOk then
      if accepted then .connected (tcpin address) else .ioError
    else .ioError

/-- C10: `tcpout` and `tcpin` are not total over their address input:
whenever resolution fails or yields no address they panic (for every
address and every transport outcome) instead of surfacing an `io::Error`. -/
theorem C10_tcp_setup_panics_on_lookup_failure (address : List Char)
    (connectOk bindOk accepted : Bool) :
    tcpoutFull address .failed connectOk
        = .panicked "called unwrap on an Err value" ∧
    tcpoutFull address (.resolved []) connectOk
        = .panicked "Host address lookup failed." ∧
    tcpinFull address .failed bindOk accepted
        = .panicked "called unwrap on an Err value" ∧
    tcpinFull address (.resolved []) bindOk accepted
        = .panicked "Invalid address" :=
  ⟨rfl, rfl, rfl, rfl⟩

/-! ### `ParserError` (`error.rs`) -/

/-- `ParserError` from `error.rs`, field for field (`&'static str` type
names as `String`, `u32`/`u16` values as `Nat`, the boxed
`MAVLinkMessageRaw` as its raw frame bytes). -/
inductive ParserError where
  | InvalidFlag (flag_type : String) (value : Nat)
  | InvalidEnum (enum_type : String) (value : Nat)
  | InvalidCRC (crc : Nat) (calculated_crc : Nat) (message : List Nat)
  | UnknownMessage (id : Nat)
deriving DecidableEq, Repr

/-- Diagnostic context of an `InvalidFlag`: type name and value. -/
def ParserError.flagContext : ParserError → Option (String × Nat)
  | .InvalidFlag t v => some (t, v)
  | _ => none

/-- Diagnostic context of an `InvalidEnum`: type name and value. -/
def ParserError.enumContext : ParserError → Option (String × Nat)
  | .InvalidEnum t v => some (t, v)
  | _ => none

/-- Diagnostic context of an `InvalidCRC`: stored checksum, recomputed
checksum and the complete raw frame bytes. -/
def ParserError.crcContext : ParserError → Option (Nat × Nat × List Nat)
  | .InvalidCRC c cc m => some (c, cc, m)
  | _ => none

/-- Diagnostic context of an `UnknownMessage`: the offending id. -/
def ParserError.unknownId : ParserError → Option Nat
  | .UnknownMessage i => some i
  | _ => none

/-- C9: Every `ParserError` value carries the promised diagnostic
context: the four projections recover exactly the stored data, and every
value is one of the four fully-contextualised forms. -/
theorem C9_parser_error_context :
    (∀ (ft : String) (v : Nat),
      (ParserError.InvalidFlag ft v).flagContext = some (ft, v)) ∧
    (∀ (et : String) (v : Nat),
      (ParserError.InvalidEnum et v).enumContext = some (et, v)) ∧
    (∀ (crc cc : Nat) (m : List Nat),
      (ParserError.InvalidCRC crc cc m).crcContext = some (crc, cc, m)) ∧
    (∀ i : Nat, (ParserError.UnknownMessage i).unknownId = some i) ∧
    (∀ e : ParserError,
      e.flagContext.isSome ∨ e.enumContext.isSome ∨ e.crcContext.isSome ∨
        e.unknownId.isSome) := by
  refine ⟨fun _ _ => rfl, fun _ _ => rfl, fun _ _ _ => rfl, fun _ => rfl, ?_⟩
  intro e
  cases e
  · exact Or.inl rfl
  · exact Or.inr (Or.inl rfl)
  · exact Or.inr (Or.inr (Or.inl rfl))
  · exact Or.inr (Or.inr (Or.inr rfl))

end Mavlink
